import Mathlib

/-!
Verification of the Just-Dance-MMPose video processing pipeline
(`app.py`, `projects/just_dance/just_dance/process_video.py`,
`projects/just_dance/just_dance/utils.py`).

The repository's motion-similarity engine (`calculate_similarity`,
`select_piece_from_similarity`), the temporal keypoint smoother
(`get_smoothed_kpt`) and the frame-rate converter (`convert_video_fps`)
are imported by `process_video.py` but their defining files are not among
the given sources; those definitions are modelled from the specification
and are marked as such in their doc comments.  Everything else is a direct
shallow embedding of the Python sources: machine floats become rationals,
numpy arrays become lists, the file system becomes an explicit association
list, and external collaborators (video decoding, the detector and pose
model, the visualizer) become explicit function parameters.
-/

/-- A single body joint: x, y coordinates and a confidence value
(one row of the innermost axis of a `(·, 17, 3)` keypoint array). -/
structure Joint where
  x : ℚ
  y : ℚ
  c : ℚ
deriving DecidableEq, Repr

/-- One time step's keypoints: a list of joints (one frame of a keypoint
sequence, the `(17, 3)` slice of the numpy array). -/
abbrev Frame := List Joint

/-- A keypoint sequence: one `Frame` per video frame (the whole
`(N, 17, 3)` numpy array). -/
abbrev KptSeq := List Frame

/-- Decoded video frames are opaque to the engine; identify them by id. -/
abbrev Image := ℕ

/-- The type of the temporal smoothing function
`(kpts, index, window) -> frame` used at render time. -/
abbrev SmoothFn := KptSeq → ℕ → ℕ → Frame

/-! ## Keypoint Normalizer and similarity matrix (modelled from the spec) -/

/-- Modelled from the spec: the configurable confidence threshold below
which joints are discarded by the Keypoint Normalizer (spec section 4.1). -/
def confidence_threshold : ℚ := 3 / 10

/-- Maximum of a list of rationals (defaulting to the head so that the
result is an element of a nonempty list). -/
def listMax (l : List ℚ) : ℚ := l.foldr max (l.headD 0)

/-- Minimum of a list of rationals. -/
def listMin (l : List ℚ) : ℚ := l.foldr min (l.headD 0)

/-- Modelled from the spec: the Keypoint Normalizer (spec section 4.1);
the source module `calculate_similarity.py` that normalizes frames is not
among the given sources.  Joints below the confidence threshold are
discarded when computing a reference origin (centroid of high-confidence
joints) and a bounding-box-derived reference scale; every joint is then
translated by the origin and divided by the scale, confidences passing
through unchanged.  A frame with no usable joints or a degenerate
(zero) scale normalizes to the all-zero, zero-weight sentinel. -/
def normalizeFrame (f : Frame) : Frame :=
  let good := f.filter (fun j => confidence_threshold < j.c)
  let sentinel : Frame := f.map (fun _ => ⟨0, 0, 0⟩)
  if good.isEmpty then sentinel
  else
    let xs := good.map Joint.x
    let ys := good.map Joint.y
    let scale := max (listMax xs - listMin xs) (listMax ys - listMin ys)
    if scale ≤ 0 then sentinel
    else
      let ox := xs.sum / (good.length : ℚ)
      let oy := ys.sum / (good.length : ℚ)
      f.map (fun j => ⟨(j.x - ox) / scale, (j.y - oy) / scale, j.c⟩)

/-- Modelled from the spec: per-joint geometric agreement, a bounded
decreasing function of the squared coordinate distance, in (0, 1] and
maximal exactly at distance 0 (spec section 4.2). -/
def jointAgreement (a b : Joint) : ℚ :=
  1 / (1 + ((a.x - b.x) ^ 2 + (a.y - b.y) ^ 2))

/-- Modelled from the spec: the total confidence weight two poses share,
each joint pair weighted by the product of its two confidences
(spec section 4.2). -/
def poseWeight (p q : Frame) : ℚ :=
  (List.zipWith (fun a b => a.c * b.c) p q).sum

/-- Modelled from the spec: per-pair frame similarity — the
confidence-weighted average of the per-joint agreements, so that
low-confidence or occluded joints contribute little to either the
numerator or the denominator and absent joints cannot inflate the
score; a pair with no shared confidence weight — in particular the
no-signal sentinel against anything, itself included — gets the
minimal similarity 0, while self-similarity of a pose with usable
weight is the maximal value 1 (spec sections 4.1, 4.2 and 8). -/
def poseSimilarity (p q : Frame) : ℚ :=
  if poseWeight p q = 0 then 0
  else
    (List.zipWith (fun a b => a.c * b.c * jointAgreement a b) p q).sum /
      poseWeight p q

/-- Modelled from the spec: the Frame Similarity Matrix Builder
(`calculate_similarity` in the missing `calculate_similarity.py`).
Both sequences are normalized and the dense all-pairs matrix is built;
rows are student frames, columns are teacher frames (spec section 4.2,
orientation fixed here). -/
def calculate_similarity (tch_kpts stu_kpts : KptSeq) : List (List ℚ) :=
  let tch_norm := tch_kpts.map normalizeFrame
  let stu_norm := stu_kpts.map normalizeFrame
  stu_norm.map fun sp => tch_norm.map fun tp => poseSimilarity sp tp

/-- Entry `(i, j)` of a similarity matrix (0 outside the matrix). -/
def matEntry (M : List (List ℚ)) (i j : ℕ) : ℚ := (M.getD i []).getD j 0

/-- The values along the diagonal strip starting at cell `(si, ti)`,
of the given length. -/
def diagScores (M : List (List ℚ)) (si ti len : ℕ) : List ℚ :=
  (List.range len).map fun k => matEntry M (si + k) (ti + k)

/-- The alignment result (the `piece_info` dictionary of the source):
start indices into the teacher and student sequences, the common length,
and the per-frame similarity values along the chosen diagonal. -/
structure Piece where
  tch_start : ℕ
  stu_start : ℕ
  length : ℕ
  similarity : List ℚ
deriving DecidableEq, Repr

/-- Modelled from the spec: the length-normalized cumulative score of a
candidate piece (spec section 4.3). -/
def pieceScore (p : Piece) : ℚ := p.similarity.sum / (p.length : ℚ)

/-- Modelled from the spec: the deterministic preference order between
candidate pieces — higher length-normalized score first, then longer
segment, then smaller absolute offset, then earliest start
(spec section 4.3, tie-break policy).  Since one of the two start indices
is always 0 for a full diagonal, the absolute offset is their sum. -/
def pieceBetter (a b : Piece) : Bool :=
  if pieceScore a ≠ pieceScore b then decide (pieceScore b < pieceScore a)
  else if a.length ≠ b.length then decide (b.length < a.length)
  else if a.stu_start + a.tch_start ≠ b.stu_start + b.tch_start then
    decide (a.stu_start + a.tch_start < b.stu_start + b.tch_start)
  else decide (a.stu_start < b.stu_start)

/-- Modelled from the spec: the full-diagonal candidate of an `m × n`
similarity matrix at constant offset `d = student_start - teacher_start`
(spec section 4.3). -/
def candidateAt (M : List (List ℚ)) (m n : ℕ) (d : ℤ) : Piece :=
  if 0 ≤ d then
    let s := d.toNat
    let len := min (m - s) n
    ⟨0, s, len, diagScores M s 0 len⟩
  else
    let t := (-d).toNat
    let len := min m (n - t)
    ⟨t, 0, len, diagScores M 0 t len⟩

/-- Modelled from the spec: all feasible constant offsets of an `m × n`
matrix, from `-(n-1)` to `m-1` (spec section 4.3). -/
def candidates (M : List (List ℚ)) (m n : ℕ) : List Piece :=
  (List.range (m + n - 1)).map fun i : ℕ =>
    candidateAt M m n ((i : ℤ) - ((n : ℤ) - 1))

/-- First element winning every `better` comparison in a left fold
(the max-reduction over candidate offsets of spec section 5). -/
def pickBest (better : α → α → Bool) : List α → Option α
  | [] => none
  | a :: t => some (t.foldl (fun acc c => if better c acc then c else acc) a)

/-- Modelled from the spec: the Alignment Selector
(`select_piece_from_similarity` in the missing `calculate_similarity.py`).
Scans every feasible constant offset, scores its full diagonal and keeps
the best candidate under the deterministic tie-break order; fails on an
empty matrix (spec sections 4.3 and 7, `EmptySequence`). -/
def select_piece_from_similarity (M : List (List ℚ)) : Option Piece :=
  let m := M.length
  let n := (M.headD []).length
  if m = 0 ∨ n = 0 then none
  else pickBest pieceBetter (candidates M m n)

/-! ## Temporal Keypoint Smoother (modelled from the spec) -/

/-- Modelled from the spec: the Temporal Keypoint Smoother
(`get_smoothed_kpt`, imported by `process_video.py` from a utils module
that is not among the given sources).  Averages raw joint coordinates
over a centered window around `index`, clamped at the sequence
boundaries, weighting each contributing frame's joint by its own
confidence; a joint whose aggregate weight is zero falls back to the raw
value at `index`.  The result is a fresh derived frame; the raw sequence
is never modified (spec sections 4.4 and 3). -/
def get_smoothed_kpt (kpts : KptSeq) (index : ℕ) (window : ℕ) : Frame :=
  let lo := index - window / 2
  let hi := min kpts.length (index + window / 2 + 1)
  let idxs := (List.range (hi - lo)).map (fun k => lo + k)
  let base := kpts.getD index []
  (List.range base.length).map fun jIdx =>
    let baseJ := base.getD jIdx ⟨0, 0, 0⟩
    let contribs := idxs.map fun fIdx => (kpts.getD fIdx []).getD jIdx ⟨0, 0, 0⟩
    let w := (contribs.map Joint.c).sum
    if w = 0 then baseJ
    else ⟨(contribs.map fun j => j.c * j.x).sum / w,
          (contribs.map fun j => j.c * j.y).sum / w, baseJ.c⟩

/-! ## `VideoProcessor.get_keypoints_from_frame` (process_video.py 63-99) -/

/-- One detection instance produced by the person detector
(`pred_instances` of the first datasample). -/
structure DetInstance where
  bbox : List ℚ
  score : ℚ
deriving DecidableEq, Repr

/-- Shallow embedding of `VideoProcessor.get_keypoints_from_frame`.
The detector's predictions for the image and the pose model's
keypoint/score output for a detection are explicit parameters (they are
external neural collaborators).  No detection, or a most-prominent
detection below the 0.2 bbox-score threshold, yields the all-zero
`(1, 17, 3)` array; otherwise the pose model's keypoints and scores for
the first detection are concatenated along the last axis. -/
def get_keypoints_from_frame (det_results : List DetInstance)
    (pose : DetInstance → List (ℚ × ℚ) × List ℚ) : List Frame :=
  match det_results with
  | [] => [List.replicate 17 ⟨0, 0, 0⟩]
  | inst :: _ =>
    if inst.score < 1 / 5 then [List.replicate 17 ⟨0, 0, 0⟩]
    else
      let out := pose inst
      [List.zipWith (fun xy s => ⟨xy.1, xy.2, s⟩) out.1 out.2]

/-! ## `VideoProcessor.get_keypoints_from_video` (process_video.py 101-123) -/

/-- The external video/inference environment: reported fps of a video
file, the frame-rate converter `convert_video_fps` (its defining utils
module is not among the given sources; it is an abstract collaborator
here), the decoded frames of a video, and the detector and pose model
applied per frame. -/
structure VideoEnv where
  fps : String → ℚ
  convert_video_fps : String → String
  frames : String → List Image
  det : Image → List DetInstance
  pose : Image → DetInstance → List (ℚ × ℚ) × List ℚ

/-- The file system as seen by the keypoint cache: an association list
from file names to stored keypoint arrays (`torch.save`/`torch.load`). -/
abbrev FS := List (String × KptSeq)

/-- `video.rsplit('.', 1)[0]`: the video path without its last extension. -/
def rsplitBase (s : String) : String :=
  match s.splitOn "." with
  | [] => s
  | [p] => p
  | ps => String.intercalate "." ps.dropLast

/-- The cache file name `f'{video_fname}_kpts.pth'` of a video path. -/
def cacheFile (video : String) : String := rsplitBase video ++ "_kpts.pth"

/-- The frame loop of `get_keypoints_from_video`: per-frame keypoints of
every decoded frame, concatenated along the first axis (np.concatenate). -/
def extract_video_keypoints (env : VideoEnv) (reader : String) : KptSeq :=
  ((env.frames reader).map
    (fun img => get_keypoints_from_frame (env.det img) (env.pose img))).flatten

/-- Shallow embedding of `VideoProcessor.get_keypoints_from_video`.
If the cache file exists its contents are returned unchanged; otherwise
the video (converted first when its fps is not 30) is decoded and
processed frame by frame, the result is written to the cache file and
returned.  The boolean records whether extraction was performed; the
`assert` on a non-30 fps reader becomes an error value. -/
def get_keypoints_from_video (env : VideoEnv) (fs : FS) (video : String) :
    Except String (KptSeq × FS × Bool) :=
  match fs.lookup (cacheFile video) with
  | some kpts => .ok (kpts, fs, false)
  | none =>
    let reader := if env.fps video = 30 then video else env.convert_video_fps video
    if env.fps reader = 30 then
      let kpts := extract_video_keypoints env reader
      .ok (kpts, (cacheFile video, kpts) :: fs, true)
    else
      .error "only support videos with 30 FPS"

/-! ## `VideoProcessor.generate_output_video` (process_video.py 145-218) -/

/-- The score-display update of lines 190-192: the running score grows by
1000 times the frame similarity, and the displayed score is replaced only
when the running score exceeds it by more than 1500. -/
def scoreStep (sv : ℚ × ℚ) (score_frame : ℚ) : ℚ × ℚ :=
  let score := sv.1 + score_frame * 1000
  let vis := if 1500 < score - sv.2 then score else sv.2
  (score, vis)

/-- The per-frame similarity values the rendering loop consumes:
`piece_info['similarity'][i]` for `i` below the piece length. -/
def pieceSims (p : Piece) : List ℚ :=
  (List.range p.length).map fun k => p.similarity.getD k 0

/-- The `(score, last_vis_score)` states of the rendering loop: entry
`i + 1` is the state after rendering frame `i`, starting from `(0, 0)`. -/
def scoreStates (p : Piece) : List (ℚ × ℚ) :=
  List.scanl scoreStep (0, 0) (pieceSims p)

/-- Observable outcome of `generate_output_video`: the keypoint arrays as
they stand after the call, the teacher/student frames consumed by the
main loop in order, the shifted per-frame keypoints handed to the
visualizer, and the final running and displayed scores. -/
structure GenResult where
  tch_kpts : KptSeq
  stu_kpts : KptSeq
  tch_read : List Image
  stu_read : List Image
  drawn : List (Frame × Frame)
  score : ℚ
  last_vis_score : ℚ
deriving DecidableEq, Repr

/-- The skip loops of lines 152-155: advance a sequential reader `k`
frames, failing if the video is exhausted. -/
def skipFrames : List Image → ℕ → Option (List Image)
  | r, 0 => some r
  | [], _ + 1 => none
  | _ :: r, k + 1 => skipFrames r k

/-- The main rendering loop of lines 159-214: at iteration `i` one frame
is read from each reader, the smoothed keypoints at the selected offsets
are computed and shifted for drawing (the shifts act on the smoothed
values only), and the scores are updated.  `k` is the number of
iterations left. -/
def genLoop (smooth : SmoothFn) (p : Piece) :
    ℕ → ℕ → KptSeq → KptSeq → List Image → List Image → ℚ → ℚ →
    Option GenResult
  | _, 0, tk, sk, _, _, score, vis => some ⟨tk, sk, [], [], [], score, vis⟩
  | i, k + 1, tk, sk, tf :: tr, sf :: sr, score, vis =>
    let stu_kpt := (smooth sk (p.stu_start + i) 5).map
      (fun j => ⟨j.x, j.y + (300 - 256), j.c⟩)
    let tch_kpt := (smooth tk (p.tch_start + i) 5).map
      (fun j => ⟨j.x + (256 - 192), j.y + (300 - 256), j.c⟩)
    let sv := scoreStep (score, vis) (p.similarity.getD i 0)
    (genLoop smooth p (i + 1) k tk sk tr sr sv.1 sv.2).map fun res =>
      { res with
        tch_read := tf :: res.tch_read
        stu_read := sf :: res.stu_read
        drawn := (stu_kpt, tch_kpt) :: res.drawn }
  | _, _ + 1, _, _, _, _, _, _ => none

/-- Shallow embedding of `VideoProcessor.generate_output_video`,
parametrized by the smoothing function it calls. -/
def generate_output_videoWith (smooth : SmoothFn)
    (tch_video stu_video : List Image) (tch_kpts stu_kpts : KptSeq)
    (p : Piece) : Option GenResult :=
  match skipFrames tch_video p.tch_start, skipFrames stu_video p.stu_start with
  | some tr, some sr =>
    genLoop smooth p 0 p.length tch_kpts stu_kpts tr sr 0 0
  | _, _ => none

/-- `VideoProcessor.generate_output_video` as written: the smoothing
function is `get_smoothed_kpt` with window 5. -/
def generate_output_video (tch_video stu_video : List Image)
    (tch_kpts stu_kpts : KptSeq) (p : Piece) : Option GenResult :=
  generate_output_videoWith get_smoothed_kpt tch_video stu_video
    tch_kpts stu_kpts p

/-! ## `VideoProcessor.run` (process_video.py 125-143) -/

/-- Observable outcome of `run`: the similarity matrix, the selected
piece and the rendered output. -/
structure RunResult where
  sim : List (List ℚ)
  piece : Piece
  output : Option GenResult
deriving DecidableEq, Repr

/-- Shallow embedding of `VideoProcessor.run`, parametrized by the
smoothing function used during output generation: extract both keypoint
sequences (threading the cache file system), compute the similarity of
the raw sequences, select the aligned piece, then render. -/
def runWith (smooth : SmoothFn) (env : VideoEnv) (fs : FS)
    (tch_video stu_video : String) : Except String RunResult :=
  match get_keypoints_from_video env fs tch_video with
  | .error e => .error e
  | .ok (tch_kpts, fs1, _) =>
    match get_keypoints_from_video env fs1 stu_video with
    | .error e => .error e
    | .ok (stu_kpts, _, _) =>
      let sim := calculate_similarity tch_kpts stu_kpts
      match select_piece_from_similarity sim with
      | none => .error "insufficient alignment"
      | some piece =>
        .ok ⟨sim, piece,
          generate_output_videoWith smooth (env.frames tch_video)
            (env.frames stu_video) tch_kpts stu_kpts piece⟩

/-- `VideoProcessor.run` as written, smoothing with `get_smoothed_kpt`. -/
def run (env : VideoEnv) (fs : FS) (tch_video stu_video : String) :
    Except String RunResult :=
  runWith get_smoothed_kpt env fs tch_video stu_video

/-! ## The `pose_estimator` property (process_video.py 37-45) -/

/-- A constructed `Pose2DInferencer`; the id distinguishes separately
constructed instances. -/
structure PoseEstimator where
  id : ℕ
deriving DecidableEq, Repr

/-- The attribute state of a `VideoProcessor` instance: the
`_pose_estimator` attribute if set, and a counter modelling how many
collaborator constructions have happened (each `Pose2DInferencer(...)`
call creates a fresh object). -/
structure VPState where
  pose_estimator_cache : Option PoseEstimator
  next_id : ℕ
deriving DecidableEq, Repr

/-- A freshly constructed `VideoProcessor`: no `_pose_estimator`
attribute yet. -/
def freshVP : VPState := ⟨none, 0⟩

/-- Shallow embedding of the `pose_estimator` property: if the attribute
is absent, construct the inferencer, store it and return it; otherwise
return the stored object. -/
def pose_estimator_prop (s : VPState) : PoseEstimator × VPState :=
  match s.pose_estimator_cache with
  | some p => (p, s)
  | none =>
    let p : PoseEstimator := ⟨s.next_id⟩
    (p, ⟨some p, s.next_id + 1⟩)

/-! ## `blend_images` (utils.py 30-57) -/

/-- A numpy image as `blend_images` sees it: its flattened pixel values
and whether its dtype is uint8. -/
structure NpImage where
  pixels : List ℚ
  isUint8 : Bool
deriving DecidableEq, Repr

/-- `normalize_image` of utils.py 45-48: uint8 images are rescaled to
[0, 1], others pass through. -/
def normalize_image (img : NpImage) : List ℚ :=
  if img.isUint8 then img.pixels.map (· / 255) else img.pixels

/-- `np.clip(·, 0, 1)` on one value. -/
def clip01 (v : ℚ) : ℚ := max 0 (min 1 v)

/-- Shallow embedding of `blend_images` (utils.py 30-57): normalize both
images, take the ratio-weighted sum pixel-wise, clip to [0, 1], scale by
255 and truncate to integers (the `astype(np.uint8)` cast; the values
are nonnegative so truncation is the floor). -/
def blend_images (img1 img2 : NpImage) (r1 r2 : ℚ) : List ℤ :=
  (List.zipWith (fun a b => a * r1 + b * r2)
    (normalize_image img1) (normalize_image img2)).map
    (fun v => Int.floor (clip01 v * 255))

/-! ## Concrete inputs used by the witness theorems -/

/-- A pose model returning 17 keypoints and 17 scores for any detection. -/
def poseModel0 : DetInstance → List (ℚ × ℚ) × List ℚ :=
  fun _ => (List.replicate 17 (0, 0), List.replicate 17 0)

/-- A trivial 30fps environment: one decoded frame, no detections. -/
def envA : VideoEnv :=
  ⟨fun _ => 30, fun v => v, fun _ => [0], fun _ => [], fun _ _ => ([], [])⟩

/-- The keypoints `envA` extracts from any video: one all-zero frame. -/
def kptsA : KptSeq := [List.replicate 17 ⟨0, 0, 0⟩]

/-- An environment whose video `w.mp4` reports 25 fps and whose converter
returns a 30 fps file. -/
def envB : VideoEnv :=
  ⟨fun s => if s = "w.mp4" then 25 else 30, fun _ => "w30.mp4",
   fun _ => [0, 1], fun _ => [], fun _ _ => ([], [])⟩

/-- A frame with two confident joints: normalizes to a usable pose. -/
def frameX : Frame := [⟨0, 0, 1⟩, ⟨1, 1, 1⟩]

/-- An all-zero "no detection" frame: normalizes to the no-signal
sentinel. -/
def frameZ : Frame := [⟨0, 0, 0⟩, ⟨0, 0, 0⟩]

/-- An identical pair member holding a no-signal frame between two
detected frames. -/
def seqCex : KptSeq := [frameX, frameZ, frameX]

/-- The similarity matrix of `seqCex` against itself: the sentinel row
and column score the minimal 0. -/
def matCex : List (List ℚ) := [[1, 0, 1], [0, 0, 0], [1, 0, 1]]

/-- A 30fps environment whose detector finds one confident person and
whose pose model reports two confident joints. -/
def envC : VideoEnv :=
  ⟨fun _ => 30, fun v => v, fun _ => [0], fun _ => [⟨[0], 1⟩],
   fun _ _ => ([(0, 0), (1, 1)], [1, 1])⟩

/-- The keypoints `envC` extracts from any video: one copy of the
two-joint frame. -/
def kptsC : KptSeq := [frameX]

/-! ## Claim C2 -/

/-- Claim C2: `get_keypoints_from_frame` always returns a `(1, 17, 3)`
array; when the detector returns no instance, or the most prominent
detection's bbox score is below the 0.2 threshold, the array is all
zeros; otherwise it holds the pose model's keypoints and scores of the
first detection, concatenated along the last axis. -/
theorem claim_C2 (det_results : List DetInstance)
    (pose : DetInstance → List (ℚ × ℚ) × List ℚ)
    (h17 : ∀ inst, (pose inst).1.length = 17 ∧ (pose inst).2.length = 17) :
    (get_keypoints_from_frame det_results pose).length = 1 ∧
    (∀ fr ∈ get_keypoints_from_frame det_results pose, fr.length = 17) ∧
    (det_results = [] →
      get_keypoints_from_frame det_results pose =
        [List.replicate 17 ⟨0, 0, 0⟩]) ∧
    (∀ inst rest, det_results = inst :: rest → inst.score < 1 / 5 →
      get_keypoints_from_frame det_results pose =
        [List.replicate 17 ⟨0, 0, 0⟩]) ∧
    (∀ inst rest, det_results = inst :: rest → ¬ inst.score < 1 / 5 →
      get_keypoints_from_frame det_results pose =
        [List.zipWith (fun xy s => (⟨xy.1, xy.2, s⟩ : Joint))
          (pose inst).1 (pose inst).2]) := by
  cases det_results with
  | nil =>
    refine ⟨rfl, ?_, fun _ => rfl, ?_, ?_⟩
    · intro fr hfr
      simp only [get_keypoints_from_frame, List.mem_singleton] at hfr
      simp [hfr]
    · intro inst rest h; cases h
    · intro inst rest h; cases h
  | cons inst rest =>
    by_cases hs : inst.score < 1 / 5
    · have hval : get_keypoints_from_frame (inst :: rest) pose =
          [List.replicate 17 ⟨0, 0, 0⟩] := by
        simp only [get_keypoints_from_frame]
        rw [if_pos hs]
      refine ⟨by rw [hval]; rfl, ?_, ?_, fun inst' rest' h _ => hval, ?_⟩
      · intro fr hfr
        rw [hval] at hfr
        simp only [List.mem_singleton] at hfr
        simp [hfr]
      · intro h
        exact absurd h (List.cons_ne_nil _ _)
      · intro inst' rest' h hn
        injection h with h1 h2
        subst h1
        exact absurd hs hn
    · have hval : get_keypoints_from_frame (inst :: rest) pose =
          [List.zipWith (fun xy s => (⟨xy.1, xy.2, s⟩ : Joint))
            (pose inst).1 (pose inst).2] := by
        simp only [get_keypoints_from_frame]
        rw [if_neg hs]
      refine ⟨by rw [hval]; rfl, ?_, ?_, ?_, ?_⟩
      · intro fr hfr
        rw [hval] at hfr
        simp only [List.mem_singleton] at hfr
        subst hfr
        simp [List.length_zipWith, (h17 inst).1, (h17 inst).2]
      · intro h
        exact absurd h (List.cons_ne_nil _ _)
      · intro inst' rest' h hlt
        injection h with h1 h2
        subst h1
        exact absurd hlt hs
      · intro inst' rest' h _
        injection h with h1 h2
        subst h1
        exact hval

/-- Witness for claim C2 at a concrete detector output and pose model. -/
theorem claim_C2_witness :
    (∀ inst, (poseModel0 inst).1.length = 17 ∧
      (poseModel0 inst).2.length = 17) ∧
    ((get_keypoints_from_frame [] poseModel0).length = 1 ∧
    (∀ fr ∈ get_keypoints_from_frame [] poseModel0, fr.length = 17) ∧
    (([] : List DetInstance) = [] →
      get_keypoints_from_frame [] poseModel0 =
        [List.replicate 17 ⟨0, 0, 0⟩]) ∧
    (∀ inst rest, ([] : List DetInstance) = inst :: rest →
      inst.score < 1 / 5 →
      get_keypoints_from_frame [] poseModel0 =
        [List.replicate 17 ⟨0, 0, 0⟩]) ∧
    (∀ inst rest, ([] : List DetInstance) = inst :: rest →
      ¬ inst.score < 1 / 5 →
      get_keypoints_from_frame [] poseModel0 =
        [List.zipWith (fun xy s => (⟨xy.1, xy.2, s⟩ : Joint))
          (poseModel0 inst).1 (poseModel0 inst).2])) :=
  ⟨fun _ => ⟨by simp [poseModel0], by simp [poseModel0]⟩,
   claim_C2 [] poseModel0
     (fun _ => ⟨by simp [poseModel0], by simp [poseModel0]⟩)⟩

/-! ## Claim C8 -/

/-- Claim C8: the `pose_estimator` property constructs the inferencer at
most once — a first access on a fresh instance constructs and caches it
(the construction counter advances exactly once), and accessing the
property twice is identical to accessing it once, returning the very
object cached by the first access. -/
theorem claim_C8 (s : VPState) :
    pose_estimator_prop (pose_estimator_prop s).2 =
      ((pose_estimator_prop s).1, (pose_estimator_prop s).2) ∧
    (pose_estimator_prop freshVP).2.pose_estimator_cache =
      some (pose_estimator_prop freshVP).1 ∧
    (pose_estimator_prop freshVP).2.next_id = freshVP.next_id + 1 ∧
    (pose_estimator_prop (pose_estimator_prop s).2).2.next_id =
      (pose_estimator_prop s).2.next_id := by
  cases h : s.pose_estimator_cache <;>
    simp [pose_estimator_prop, h, freshVP]

/-! ## Claim C10 -/

/-- Claim C10: for equally shaped inputs and arbitrary (even negative or
oversized) blend ratios, every entry of `blend_images` lies in
`[0, 255]` — uint8 inputs are rescaled to `[0, 1]` first, the weighted
sum is clipped to `[0, 1]` and only then scaled to the uint8 range. -/
theorem claim_C10 (img1 img2 : NpImage) (r1 r2 : ℚ) :
    ∀ p ∈ blend_images img1 img2 r1 r2, 0 ≤ p ∧ p ≤ 255 := by
  intro p hp
  simp only [blend_images, List.mem_map] at hp
  obtain ⟨v, -, rfl⟩ := hp
  have h0 : (0 : ℚ) ≤ clip01 v := le_max_left _ _
  have h1 : clip01 v ≤ 1 := max_le (by norm_num) (min_le_left _ _)
  constructor
  · have : (0 : ℚ) ≤ clip01 v * 255 := by positivity
    exact Int.le_floor.mpr (by exact_mod_cast this)
  · have : clip01 v * 255 ≤ 255 := by nlinarith
    calc Int.floor (clip01 v * 255) ≤ Int.floor ((255 : ℚ)) :=
          Int.floor_le_floor this
    _ = 255 := by norm_num

/-- Witness for claim C10: a uint8 pixel blended with a negative ratio
stays in range. -/
theorem claim_C10_witness :
    (0 : ℤ) ∈ blend_images ⟨[300], true⟩ ⟨[7], false⟩ 1 (-5) ∧
    (0 ≤ (0 : ℤ) ∧ (0 : ℤ) ≤ 255) := by
  have hv : blend_images ⟨[300], true⟩ ⟨[7], false⟩ 1 (-5) = [0] := by
    show [Int.floor (clip01 ((300 : ℚ) / 255 * 1 + 7 * (-5)) * 255)] = [0]
    have h1 : (300 : ℚ) / 255 * 1 + 7 * (-5) = -575 / 17 := by norm_num
    have h2 : clip01 (-575 / 17) = 0 := by
      rw [clip01, min_eq_right (by norm_num : (-575 / 17 : ℚ) ≤ 1),
        max_eq_left (by norm_num : (-575 / 17 : ℚ) ≤ 0)]
    rw [h1, h2, zero_mul]
    norm_num
  have hmem : (0 : ℤ) ∈ blend_images ⟨[300], true⟩ ⟨[7], false⟩ 1 (-5) := by
    rw [hv]; exact List.mem_singleton.mpr rfl
  exact ⟨hmem, claim_C10 ⟨[300], true⟩ ⟨[7], false⟩ 1 (-5) 0 hmem⟩

/-! ## Claim C3 -/

/-- Claim C3: `get_keypoints_from_video` is a cache: a hit on
`<video>_kpts.pth` returns the stored contents with no extraction and no
file-system change; a miss extracts, stores the result under that name
and returns it, so a second call with the same path returns the same
keypoints while skipping re-extraction. -/
theorem claim_C3 (env : VideoEnv) (fs : FS) (video : String) (k : KptSeq)
    (fs' : FS) (b : Bool)
    (hmiss : fs.lookup (cacheFile video) = none)
    (hfirst : get_keypoints_from_video env fs video = .ok (k, fs', b)) :
    b = true ∧ fs'.lookup (cacheFile video) = some k ∧
    get_keypoints_from_video env fs' video = .ok (k, fs', false) ∧
    ∀ (g : FS) (c : KptSeq), g.lookup (cacheFile video) = some c →
      get_keypoints_from_video env g video = .ok (c, g, false) := by
  have hhit : ∀ (g : FS) (c : KptSeq), g.lookup (cacheFile video) = some c →
      get_keypoints_from_video env g video = .ok (c, g, false) := by
    intro g c hg
    simp [get_keypoints_from_video, hg]
  simp only [get_keypoints_from_video, hmiss] at hfirst
  by_cases hfps :
      env.fps (if env.fps video = 30 then video
               else env.convert_video_fps video) = 30
  · simp only [hfps, if_true, Except.ok.injEq, Prod.mk.injEq] at hfirst
    obtain ⟨hk, hfs, hb⟩ := hfirst
    subst hk; subst hfs; subst hb
    refine ⟨rfl, ?_, ?_, hhit⟩
    · simp [List.lookup]
    · exact hhit _ _ (by simp [List.lookup])
  · simp only [hfps, if_false] at hfirst
    cases hfirst

/-- Witness for claim C3: a cache miss on an empty file system followed
by the cached second call. -/
theorem claim_C3_witness :
    (([] : FS).lookup (cacheFile "v") = none ∧
      get_keypoints_from_video envA [] "v" =
        .ok (kptsA, [(cacheFile "v", kptsA)], true)) ∧
    (true = true ∧
      ([(cacheFile "v", kptsA)] : FS).lookup (cacheFile "v") = some kptsA ∧
      get_keypoints_from_video envA [(cacheFile "v", kptsA)] "v" =
        .ok (kptsA, [(cacheFile "v", kptsA)], false) ∧
      ∀ (g : FS) (c : KptSeq), g.lookup (cacheFile "v") = some c →
        get_keypoints_from_video envA g "v" = .ok (c, g, false)) :=
  ⟨⟨rfl, rfl⟩, claim_C3 envA [] "v" kptsA [(cacheFile "v", kptsA)] true rfl rfl⟩

/-! ## Claim C7 -/

/-- Claim C7: on a cache miss, extraction runs only on a 30 fps reader —
a 30 fps input is processed directly, a non-30 fps input is first passed
through `convert_video_fps` and processed only if the converted reader
reports 30 fps, and otherwise the call fails. -/
theorem claim_C7 (env : VideoEnv) (fs : FS) (video : String)
    (hmiss : fs.lookup (cacheFile video) = none) :
    (env.fps video = 30 →
      get_keypoints_from_video env fs video =
        .ok (extract_video_keypoints env video,
             (cacheFile video, extract_video_keypoints env video) :: fs,
             true)) ∧
    (env.fps video ≠ 30 → env.fps (env.convert_video_fps video) = 30 →
      get_keypoints_from_video env fs video =
        .ok (extract_video_keypoints env (env.convert_video_fps video),
             (cacheFile video,
              extract_video_keypoints env (env.convert_video_fps video)) :: fs,
             true)) ∧
    (env.fps video ≠ 30 → env.fps (env.convert_video_fps video) ≠ 30 →
      get_keypoints_from_video env fs video =
        .error "only support videos with 30 FPS") := by
  refine ⟨fun h30 => ?_, fun hne h30 => ?_, fun hne1 hne2 => ?_⟩ <;>
    simp [get_keypoints_from_video, hmiss, *]

/-- Witness for claim C7: a 25 fps video that the converter resamples. -/
theorem claim_C7_witness :
    (([] : FS).lookup (cacheFile "w.mp4") = none) ∧
    ((envB.fps "w.mp4" = 30 →
      get_keypoints_from_video envB [] "w.mp4" =
        .ok (extract_video_keypoints envB "w.mp4",
             (cacheFile "w.mp4",
              extract_video_keypoints envB "w.mp4") :: [], true)) ∧
    (envB.fps "w.mp4" ≠ 30 →
      envB.fps (envB.convert_video_fps "w.mp4") = 30 →
      get_keypoints_from_video envB [] "w.mp4" =
        .ok (extract_video_keypoints envB (envB.convert_video_fps "w.mp4"),
             (cacheFile "w.mp4",
              extract_video_keypoints envB
                (envB.convert_video_fps "w.mp4")) :: [], true)) ∧
    (envB.fps "w.mp4" ≠ 30 →
      envB.fps (envB.convert_video_fps "w.mp4") ≠ 30 →
      get_keypoints_from_video envB [] "w.mp4" =
        .error "only support videos with 30 FPS")) :=
  ⟨rfl, claim_C7 envB [] "w.mp4" rfl⟩

/-! ## Lemmas about the rendering loop -/

/-- A successful skip leaves exactly the dropped suffix in the reader. -/
theorem skipFrames_some (r : List Image) (k : ℕ) (r' : List Image)
    (h : skipFrames r k = some r') : r' = r.drop k := by
  induction k generalizing r with
  | zero =>
    simp only [skipFrames, Option.some.injEq] at h
    simp [h.symm]
  | succ k ih =>
    cases r with
    | nil => cases h
    | cons x r => simpa using ih r (by simpa [skipFrames] using h)

/-- Skipping succeeds when the reader holds enough frames. -/
theorem skipFrames_eq_drop (r : List Image) (k : ℕ) (h : k ≤ r.length) :
    skipFrames r k = some (r.drop k) := by
  induction k generalizing r with
  | zero => simp [skipFrames]
  | succ k ih =>
    cases r with
    | nil => simp at h
    | cons x r =>
      simp only [skipFrames, List.drop_succ_cons]
      exact ih r (by simp at h; omega)

/-- Everything the rendering loop guarantees on success: the keypoint
arrays come back unchanged, exactly the first `k` frames of each reader
are consumed in order, and the final scores fold `scoreStep` over the
consumed similarity values. -/
theorem genLoop_reads (smooth : SmoothFn) (p : Piece) :
    ∀ (k i : ℕ) (tk sk : KptSeq) (tr sr : List Image) (score vis : ℚ)
      (res : GenResult),
    genLoop smooth p i k tk sk tr sr score vis = some res →
    res.tch_kpts = tk ∧ res.stu_kpts = sk ∧
    res.tch_read = tr.take k ∧ res.stu_read = sr.take k ∧
    (res.score, res.last_vis_score) =
      List.foldl scoreStep (score, vis)
        ((List.range k).map fun j => p.similarity.getD (i + j) 0) := by
  intro k
  induction k with
  | zero =>
    intro i tk sk tr sr score vis res h
    simp only [genLoop, Option.some.injEq] at h
    subst h
    simp
  | succ k ih =>
    intro i tk sk tr sr score vis res h
    cases tr with
    | nil => exact absurd h (by simp [genLoop])
    | cons tf tr =>
      cases sr with
      | nil => exact absurd h (by simp [genLoop])
      | cons sf sr =>
        simp only [genLoop, Option.map_eq_some'] at h
        obtain ⟨res', hres', hF⟩ := h
        obtain ⟨h1, h2, h3, h4, h5⟩ := ih (i + 1) tk sk tr sr _ _ res' hres'
        subst hF
        refine ⟨h1, h2, by simp [h3], by simp [h4], ?_⟩
        rw [List.range_succ_eq_map, List.map_cons, List.map_map,
          List.foldl_cons]
        simp only [Nat.add_zero]
        have hfun : ((fun j => p.similarity.getD (i + j) 0) ∘ Nat.succ) =
            (fun j => p.similarity.getD (i + 1 + j) 0) := by
          funext j
          simp only [Function.comp_apply, Nat.add_succ, Nat.succ_add]
        rw [hfun]
        rw [Prod.mk.eta] at h5
        exact h5

/-- The loop succeeds whenever both readers hold at least `k` frames. -/
theorem genLoop_total (smooth : SmoothFn) (p : Piece) :
    ∀ (k i : ℕ) (tk sk : KptSeq) (tr sr : List Image) (score vis : ℚ),
    k ≤ tr.length → k ≤ sr.length →
    (genLoop smooth p i k tk sk tr sr score vis).isSome = true := by
  intro k
  induction k with
  | zero =>
    intro i tk sk tr sr score vis _ _
    rfl
  | succ k ih =>
    intro i tk sk tr sr score vis htr hsr
    cases tr with
    | nil => simp at htr
    | cons tf tr =>
      cases sr with
      | nil => simp at hsr
      | cons sf sr =>
        obtain ⟨res, hres⟩ := Option.isSome_iff_exists.mp
          (ih (i + 1) tk sk tr sr
            (scoreStep (score, vis) (p.similarity.getD i 0)).1
            (scoreStep (score, vis) (p.similarity.getD i 0)).2
            (by simp at htr; omega) (by simp at hsr; omega))
        simp only [genLoop]
        rw [hres]
        rfl

/-- On success, `generate_output_videoWith` preserves the caller's
keypoint arrays, reads exactly the selected frame ranges in playback
order, and its final scores fold `scoreStep` over the piece's similarity
values. -/
theorem generate_output_videoWith_spec (smooth : SmoothFn)
    (tch_video stu_video : List Image) (tk sk : KptSeq) (p : Piece)
    (res : GenResult)
    (h : generate_output_videoWith smooth tch_video stu_video tk sk p =
      some res) :
    res.tch_kpts = tk ∧ res.stu_kpts = sk ∧
    res.tch_read = (tch_video.drop p.tch_start).take p.length ∧
    res.stu_read = (stu_video.drop p.stu_start).take p.length ∧
    (res.score, res.last_vis_score) =
      List.foldl scoreStep (0, 0) (pieceSims p) := by
  unfold generate_output_videoWith at h
  cases htr : skipFrames tch_video p.tch_start with
  | none => rw [htr] at h; cases h
  | some tr =>
    cases hsr : skipFrames stu_video p.stu_start with
    | none => rw [htr, hsr] at h; cases h
    | some sr =>
      rw [htr, hsr] at h
      obtain ⟨h1, h2, h3, h4, h5⟩ := genLoop_reads smooth p p.length 0
        tk sk tr sr 0 0 res h
      rw [skipFrames_some _ _ _ htr] at h3
      rw [skipFrames_some _ _ _ hsr] at h4
      refine ⟨h1, h2, h3, h4, ?_⟩
      rw [h5]
      simp only [pieceSims, Nat.zero_add]

/-- `generate_output_videoWith` succeeds whenever the piece's ranges fit
inside both videos. -/
theorem generate_output_videoWith_total (smooth : SmoothFn)
    (tch_video stu_video : List Image) (tk sk : KptSeq) (p : Piece)
    (h1 : p.tch_start + p.length ≤ tch_video.length)
    (h2 : p.stu_start + p.length ≤ stu_video.length) :
    (generate_output_videoWith smooth tch_video stu_video tk sk p).isSome =
      true := by
  unfold generate_output_videoWith
  rw [skipFrames_eq_drop tch_video p.tch_start
      (le_trans (Nat.le_add_right _ _) h1),
    skipFrames_eq_drop stu_video p.stu_start
      (le_trans (Nat.le_add_right _ _) h2)]
  exact genLoop_total smooth p p.length 0 tk sk _ _ 0 0
    (by simp; omega) (by simp; omega)

/-! ## Claim C5 -/

/-- Claim C5: `generate_output_video` reads exactly the frame ranges
`[tch_start, tch_start + length)` and `[stu_start, stu_start + length)`
of the two videos, in playback order: the skip loops discard the first
`tch_start` (resp. `stu_start`) frames and the main loop then consumes
exactly `length` frames from each reader. -/
theorem claim_C5 (tch_video stu_video : List Image)
    (tch_kpts stu_kpts : KptSeq) (p : Piece)
    (h1 : p.tch_start + p.length ≤ tch_video.length)
    (h2 : p.stu_start + p.length ≤ stu_video.length) :
    ∃ res,
      generate_output_video tch_video stu_video tch_kpts stu_kpts p =
        some res ∧
      res.tch_read = (tch_video.drop p.tch_start).take p.length ∧
      res.stu_read = (stu_video.drop p.stu_start).take p.length ∧
      res.tch_read.length = p.length ∧ res.stu_read.length = p.length := by
  have htot := generate_output_videoWith_total get_smoothed_kpt tch_video
    stu_video tch_kpts stu_kpts p h1 h2
  obtain ⟨res, hres⟩ := Option.isSome_iff_exists.mp htot
  obtain ⟨-, -, h3, h4, -⟩ := generate_output_videoWith_spec get_smoothed_kpt
    tch_video stu_video tch_kpts stu_kpts p res hres
  refine ⟨res, hres, h3, h4, ?_, ?_⟩
  · rw [h3]; simp [List.length_take, List.length_drop]; omega
  · rw [h4]; simp [List.length_take, List.length_drop]; omega

/-- Witness for claim C5: a two-frame pair of videos and a one-frame
piece starting at teacher frame 1. -/
theorem claim_C5_witness :
    ((⟨1, 0, 1, [1]⟩ : Piece).tch_start + (⟨1, 0, 1, [1]⟩ : Piece).length ≤
      ([5, 6] : List Image).length ∧
     (⟨1, 0, 1, [1]⟩ : Piece).stu_start + (⟨1, 0, 1, [1]⟩ : Piece).length ≤
      ([7, 8] : List Image).length) ∧
    (∃ res,
      generate_output_video [5, 6] [7, 8] [] [] ⟨1, 0, 1, [1]⟩ = some res ∧
      res.tch_read =
        (([5, 6] : List Image).drop (⟨1, 0, 1, [1]⟩ : Piece).tch_start).take
          (⟨1, 0, 1, [1]⟩ : Piece).length ∧
      res.stu_read =
        (([7, 8] : List Image).drop (⟨1, 0, 1, [1]⟩ : Piece).stu_start).take
          (⟨1, 0, 1, [1]⟩ : Piece).length ∧
      res.tch_read.length = (⟨1, 0, 1, [1]⟩ : Piece).length ∧
      res.stu_read.length = (⟨1, 0, 1, [1]⟩ : Piece).length) :=
  ⟨⟨by decide, by decide⟩,
   claim_C5 [5, 6] [7, 8] [] [] ⟨1, 0, 1, [1]⟩ (by decide) (by decide)⟩

/-! ## Claim C6 -/

/-- Claim C6: `generate_output_video` never mutates the caller-owned
keypoint arrays — whatever smoothing function is used, the arrays after
the call are element-for-element the arrays passed in; the drawing
shifts act only on the per-frame values returned by the smoother. -/
theorem claim_C6 (smooth : SmoothFn) (tch_video stu_video : List Image)
    (tch_kpts stu_kpts : KptSeq) (p : Piece) (res : GenResult)
    (h : generate_output_videoWith smooth tch_video stu_video
      tch_kpts stu_kpts p = some res) :
    res.tch_kpts = tch_kpts ∧ res.stu_kpts = stu_kpts := by
  obtain ⟨h1, h2, -, -, -⟩ := generate_output_videoWith_spec smooth
    tch_video stu_video tch_kpts stu_kpts p res h
  exact ⟨h1, h2⟩

/-- Witness for claim C6 at a concrete one-frame rendering. -/
theorem claim_C6_witness :
    (generate_output_videoWith (fun _ _ _ => []) [0] [0]
      [[⟨1, 2, 3⟩]] [[⟨4, 5, 6⟩]] ⟨0, 0, 1, [1]⟩ =
      some ⟨[[⟨1, 2, 3⟩]], [[⟨4, 5, 6⟩]], [0], [0], [([], [])], 1000, 0⟩) ∧
    ((⟨[[⟨1, 2, 3⟩]], [[⟨4, 5, 6⟩]], [0], [0], [([], [])], 1000, 0⟩ :
        GenResult).tch_kpts = [[⟨1, 2, 3⟩]] ∧
     (⟨[[⟨1, 2, 3⟩]], [[⟨4, 5, 6⟩]], [0], [0], [([], [])], 1000, 0⟩ :
        GenResult).stu_kpts = [[⟨4, 5, 6⟩]]) := by
  have h : generate_output_videoWith (fun _ _ _ => []) [0] [0]
      [[⟨1, 2, 3⟩]] [[⟨4, 5, 6⟩]] ⟨0, 0, 1, [1]⟩ =
      some ⟨[[⟨1, 2, 3⟩]], [[⟨4, 5, 6⟩]], [0], [0], [([], [])], 1000, 0⟩ := by
    simp only [generate_output_videoWith, skipFrames, genLoop, scoreStep,
      List.map_nil, List.getD]
    norm_num
  exact ⟨h, claim_C6 (fun _ _ _ => []) [0] [0] [[⟨1, 2, 3⟩]] [[⟨4, 5, 6⟩]]
    ⟨0, 0, 1, [1]⟩ _ h⟩

/-! ## Score trace lemmas -/

/-- First component of a score step: the running score grows by 1000
times the frame similarity. -/
theorem scoreStep_fst (sv : ℚ × ℚ) (x : ℚ) :
    (scoreStep sv x).1 = sv.1 + x * 1000 := rfl

/-- Second component of a score step: the displayed score is replaced
only when the new running score exceeds it by more than 1500. -/
theorem scoreStep_snd (sv : ℚ × ℚ) (x : ℚ) :
    (scoreStep sv x).2 =
      if 1500 < sv.1 + x * 1000 - sv.2 then sv.1 + x * 1000 else sv.2 := rfl

/-- Entry 0 of a scan is the initial state. -/
theorem scanl_getD_zero {α β : Type} (f : β → α → β) (b : β) (l : List α)
    (d : β) : (List.scanl f b l).getD 0 d = b := by
  cases l <;> simp [List.scanl]

/-- Recurrence of a scan: entry `i + 1` applies `f` to entry `i` and the
`i`-th list element. -/
theorem scanl_getD_succ {α β : Type} (f : β → α → β) (b : β) (l : List α)
    (d : β) (d' : α) :
    ∀ i, i < l.length →
    (List.scanl f b l).getD (i + 1) d =
      f ((List.scanl f b l).getD i d) (l.getD i d') := by
  induction l generalizing b with
  | nil => intro i hi; simp at hi
  | cons x t ih =>
    intro i hi
    cases i with
    | zero =>
      simp only [List.scanl_cons, List.getD_cons_succ, List.getD_cons_zero]
      exact scanl_getD_zero f (f b x) t d
    | succ i =>
      simp only [List.scanl_cons, List.getD_cons_succ]
      exact ih (f b x) i (by simp at hi; omega)

/-- A left fold is the last entry of the corresponding scan. -/
theorem foldl_eq_scanl_getD {α β : Type} (f : β → α → β) (b : β)
    (l : List α) (d : β) :
    List.foldl f b l = (List.scanl f b l).getD l.length d := by
  induction l generalizing b with
  | nil => simp [List.scanl]
  | cons x t ih =>
    simp only [List.foldl_cons, List.length_cons, List.scanl_cons,
      List.getD_cons_succ]
    exact ih (f b x)

/-- The rendering loop consumes one similarity value per frame. -/
theorem pieceSims_length (p : Piece) : (pieceSims p).length = p.length := by
  simp [pieceSims]

/-- Below the piece length, the consumed similarity values are the
entries of `piece_info['similarity']`. -/
theorem pieceSims_getD (p : Piece) (i : ℕ) (hi : i < p.length) :
    (pieceSims p).getD i 0 = p.similarity.getD i 0 := by
  have hlen : i < (pieceSims p).length := by simpa [pieceSims] using hi
  rw [List.getD_eq_getElem _ _ hlen]
  simp [pieceSims]

/-- The score states start at `(0, 0)`. -/
theorem scoreStates_zero (p : Piece) :
    (scoreStates p).getD 0 (0, 0) = (0, 0) :=
  scanl_getD_zero _ _ _ _

/-- Score-state recurrence: the state after frame `i` is a `scoreStep`
applied to the state before it. -/
theorem scoreStates_succ (p : Piece) (i : ℕ) (hi : i < p.length) :
    (scoreStates p).getD (i + 1) (0, 0) =
      scoreStep ((scoreStates p).getD i (0, 0)) (p.similarity.getD i 0) := by
  simp only [scoreStates]
  rw [scanl_getD_succ scoreStep (0, 0) (pieceSims p) (0, 0) 0 i
    (by simpa [pieceSims] using hi)]
  rw [pieceSims_getD p i hi]

/-- The running score after frame `i - 1` is 1000 times the partial sum
of the similarity values. -/
theorem scoreStates_fst (p : Piece) (hlen : p.length ≤ p.similarity.length) :
    ∀ i, i ≤ p.length →
      ((scoreStates p).getD i (0, 0)).1 =
        1000 * (p.similarity.take i).sum := by
  intro i
  induction i with
  | zero =>
    intro _
    rw [scoreStates_zero]
    simp
  | succ i ih =>
    intro hi
    have hi' : i < p.length := by omega
    rw [scoreStates_succ p i hi', scoreStep_fst, ih (le_of_lt hi')]
    rw [List.getD_eq_getElem _ _ (by omega : i < p.similarity.length)]
    rw [List.sum_take_succ _ i (by omega : i < p.similarity.length)]
    ring

/-! ## Claim C9 -/

/-- Claim C9: during output generation the running score after frame `i`
is 1000 times the sum of `piece_info['similarity'][0..i]`; the displayed
score (and its drawn integer part) never decreases from one frame to the
next, being replaced by the running score only when the latter exceeds
it by more than 1500 and staying unchanged otherwise; and the final
loop state is exactly the fold of this update rule. -/
theorem claim_C9 (tch_video stu_video : List Image)
    (tch_kpts stu_kpts : KptSeq) (p : Piece) (res : GenResult) (i : ℕ)
    (hres : generate_output_video tch_video stu_video tch_kpts stu_kpts p =
      some res)
    (hlen : p.length ≤ p.similarity.length) (hi : i < p.length) :
    ((scoreStates p).getD (i + 1) (0, 0)).1 =
      1000 * (p.similarity.take (i + 1)).sum ∧
    ((scoreStates p).getD i (0, 0)).2 ≤
      ((scoreStates p).getD (i + 1) (0, 0)).2 ∧
    Int.floor ((scoreStates p).getD i (0, 0)).2 ≤
      Int.floor ((scoreStates p).getD (i + 1) (0, 0)).2 ∧
    ((scoreStates p).getD (i + 1) (0, 0)).2 =
      (if 1500 < ((scoreStates p).getD (i + 1) (0, 0)).1 -
          ((scoreStates p).getD i (0, 0)).2
       then ((scoreStates p).getD (i + 1) (0, 0)).1
       else ((scoreStates p).getD i (0, 0)).2) ∧
    (res.score, res.last_vis_score) = (scoreStates p).getD p.length (0, 0) := by
  have hsucc := scoreStates_succ p i hi
  have hupd : ((scoreStates p).getD (i + 1) (0, 0)).2 =
      (if 1500 < ((scoreStates p).getD (i + 1) (0, 0)).1 -
          ((scoreStates p).getD i (0, 0)).2
       then ((scoreStates p).getD (i + 1) (0, 0)).1
       else ((scoreStates p).getD i (0, 0)).2) := by
    rw [hsucc, scoreStep_snd, scoreStep_fst]
  have hmono : ((scoreStates p).getD i (0, 0)).2 ≤
      ((scoreStates p).getD (i + 1) (0, 0)).2 := by
    rw [hupd]
    by_cases hc : 1500 < ((scoreStates p).getD (i + 1) (0, 0)).1 -
        ((scoreStates p).getD i (0, 0)).2
    · rw [if_pos hc]; linarith
    · rw [if_neg hc]
  refine ⟨?_, hmono, Int.floor_le_floor hmono, hupd, ?_⟩
  · exact scoreStates_fst p hlen (i + 1) (by omega)
  · have hres' : generate_output_videoWith get_smoothed_kpt tch_video
        stu_video tch_kpts stu_kpts p = some res := hres
    have hfold := (generate_output_videoWith_spec get_smoothed_kpt tch_video
      stu_video tch_kpts stu_kpts p res hres').2.2.2.2
    rw [hfold, scoreStates,
      foldl_eq_scanl_getD scoreStep (0, 0) (pieceSims p) (0, 0),
      pieceSims_length]

/-- Witness for claim C9: a one-frame piece with similarity value 1. -/
theorem claim_C9_witness :
    (generate_output_video [0] [0] [] [] ⟨0, 0, 1, [1]⟩ =
      some ⟨[], [], [0], [0], [([], [])], 1000, 0⟩ ∧
     (⟨0, 0, 1, [1]⟩ : Piece).length ≤
       (⟨0, 0, 1, [1]⟩ : Piece).similarity.length ∧
     0 < (⟨0, 0, 1, [1]⟩ : Piece).length) ∧
    (((scoreStates ⟨0, 0, 1, [1]⟩).getD 1 (0, 0)).1 =
      1000 * (((⟨0, 0, 1, [1]⟩ : Piece).similarity.take 1).sum) ∧
    ((scoreStates ⟨0, 0, 1, [1]⟩).getD 0 (0, 0)).2 ≤
      ((scoreStates ⟨0, 0, 1, [1]⟩).getD 1 (0, 0)).2 ∧
    Int.floor ((scoreStates ⟨0, 0, 1, [1]⟩).getD 0 (0, 0)).2 ≤
      Int.floor ((scoreStates ⟨0, 0, 1, [1]⟩).getD 1 (0, 0)).2 ∧
    ((scoreStates ⟨0, 0, 1, [1]⟩).getD 1 (0, 0)).2 =
      (if 1500 < ((scoreStates ⟨0, 0, 1, [1]⟩).getD 1 (0, 0)).1 -
          ((scoreStates ⟨0, 0, 1, [1]⟩).getD 0 (0, 0)).2
       then ((scoreStates ⟨0, 0, 1, [1]⟩).getD 1 (0, 0)).1
       else ((scoreStates ⟨0, 0, 1, [1]⟩).getD 0 (0, 0)).2) ∧
    ((⟨[], [], [0], [0], [([], [])], 1000, 0⟩ : GenResult).score,
     (⟨[], [], [0], [0], [([], [])], 1000, 0⟩ : GenResult).last_vis_score) =
      (scoreStates ⟨0, 0, 1, [1]⟩).getD (⟨0, 0, 1, [1]⟩ : Piece).length
        (0, 0)) := by
  have h : generate_output_video [0] [0] [] [] ⟨0, 0, 1, [1]⟩ =
      some ⟨[], [], [0], [0], [([], [])], 1000, 0⟩ := by
    simp [generate_output_video, generate_output_videoWith, skipFrames,
      genLoop, scoreStep, get_smoothed_kpt]
    norm_num
  exact ⟨⟨h, by decide, by decide⟩,
    claim_C9 [0] [0] [] [] ⟨0, 0, 1, [1]⟩ ⟨[], [], [0], [0], [([], [])], 1000, 0⟩
      0 h (by decide) (by decide)⟩

/-! ## Claim C4 -/

/-- Claim C4: in `run`, the similarity matrix and the selected piece are
computed from the raw extracted keypoint sequences, before any
smoothing; the smoothing function is used only in the subsequent output
generation, so replacing it by any other function leaves the similarity
matrix and the selected piece unchanged. -/
theorem claim_C4 (smooth1 smooth2 : SmoothFn) (env : VideoEnv) (fs : FS)
    (tch_video stu_video : String) (r : RunResult)
    (k1 k2 : KptSeq) (fs1 fs2 : FS) (b1 b2 : Bool)
    (h1 : runWith smooth1 env fs tch_video stu_video = .ok r)
    (hk1 : get_keypoints_from_video env fs tch_video = .ok (k1, fs1, b1))
    (hk2 : get_keypoints_from_video env fs1 stu_video = .ok (k2, fs2, b2)) :
    r.sim = calculate_similarity k1 k2 ∧
    select_piece_from_similarity r.sim = some r.piece ∧
    (runWith smooth2 env fs tch_video stu_video).toOption.map
      (fun x => (x.sim, x.piece)) = some (r.sim, r.piece) := by
  simp only [runWith, hk1, hk2] at h1 ⊢
  cases hsel : select_piece_from_similarity (calculate_similarity k1 k2) with
  | none =>
    rw [hsel] at h1
    exact Except.noConfusion h1
  | some piece =>
    rw [hsel] at h1
    simp only [Except.ok.injEq] at h1
    subst h1
    exact ⟨rfl, hsel, by rfl⟩

/-! ## Lemmas about the candidate order and the max-reduction -/

/-- No candidate is strictly better than itself. -/
theorem pieceBetter_self (a : Piece) : pieceBetter a a = false := by
  simp [pieceBetter]

/-- A candidate with at least the score of another and a strictly larger
length wins the comparison in both directions. -/
theorem pieceBetter_dominates (a b : Piece) (h1 : pieceScore b ≤ pieceScore a)
    (h2 : b.length < a.length) :
    pieceBetter a b = true ∧ pieceBetter b a = false := by
  rcases eq_or_lt_of_le h1 with heq | hlt
  · constructor
    · rw [pieceBetter, if_neg (by simp [heq]), if_pos (by omega),
        decide_eq_true_eq]
      exact h2
    · rw [pieceBetter, if_neg (by simp [heq]), if_pos (by omega),
        decide_eq_false_iff_not]
      omega
  · constructor
    · rw [pieceBetter, if_pos (ne_of_gt hlt), decide_eq_true_eq]
      exact hlt
    · rw [pieceBetter, if_pos (ne_of_lt hlt), decide_eq_false_iff_not]
      exact not_lt.mpr (le_of_lt hlt)

/-- An element strictly better than every other element of the list is
the result of the left-fold max-reduction, whatever the start value. -/
theorem foldl_best {α : Type} (better : α → α → Bool) (x : α)
    (hxx : better x x = false) :
    ∀ (t : List α) (a : α), (x = a ∨ x ∈ t) →
    (∀ y, (y = a ∨ y ∈ t) → y ≠ x →
      better x y = true ∧ better y x = false) →
    t.foldl (fun acc c => if better c acc then c else acc) a = x := by
  intro t
  induction t with
  | nil =>
    intro a hx _
    rcases hx with rfl | hx
    · rfl
    · cases hx
  | cons c t ih =>
    intro a hx hdom
    simp only [List.foldl_cons]
    have hacc_cases : (if better c a then c else a) = c ∨
        (if better c a then c else a) = a := by
      by_cases hba : better c a = true
      · exact Or.inl (if_pos hba)
      · exact Or.inr (if_neg (by simp [hba]))
    have hdom' : ∀ y, (y = (if better c a then c else a) ∨ y ∈ t) → y ≠ x →
        better x y = true ∧ better y x = false := by
      intro y hy hyx
      rcases hy with rfl | hy
      · rcases hacc_cases with h | h
        · rw [h] at hyx ⊢
          exact hdom c (Or.inr (List.mem_cons_self c t)) hyx
        · rw [h] at hyx ⊢
          exact hdom a (Or.inl rfl) hyx
      · exact hdom y (Or.inr (List.mem_cons_of_mem c hy)) hyx
    have hmem' : x = (if better c a then c else a) ∨ x ∈ t := by
      rcases hx with rfl | hx
      · left
        have hba : better c x = false := by
          by_cases hcx : c = x
          · rw [hcx]; exact hxx
          · exact (hdom c (Or.inr (List.mem_cons_self c t)) hcx).2
        rw [if_neg (by simp [hba])]
      · rcases List.mem_cons.mp hx with rfl | hx
        · by_cases hba : better x a = true
          · left; rw [if_pos hba]
          · by_cases ha : a = x
            · left
              rw [ha, if_neg (by simp [hxx])]
            · exact absurd (hdom a (Or.inl rfl) ha).1 hba
        · exact Or.inr hx
    exact ih _ hmem' hdom'

/-- The max-reduction of a list returns the element strictly better than
all others. -/
theorem pickBest_eq {α : Type} (better : α → α → Bool) (l : List α) (x : α)
    (hmem : x ∈ l) (hxx : better x x = false)
    (hdom : ∀ y ∈ l, y ≠ x → better x y = true ∧ better y x = false) :
    pickBest better l = some x := by
  cases l with
  | nil => cases hmem
  | cons a t =>
    simp only [pickBest, Option.some.injEq]
    apply foldl_best better x hxx t a (List.mem_cons.mp hmem)
    intro y hy hyx
    apply hdom y _ hyx
    rcases hy with rfl | hy
    · exact List.mem_cons_self _ _
    · exact List.mem_cons_of_mem _ hy

/-! ## Similarity lemmas -/

/-- A joint agrees with itself maximally. -/
theorem jointAgreement_self (a : Joint) : jointAgreement a a = 1 := by
  rw [jointAgreement]
  simp [sub_self]

/-- The per-joint agreement never exceeds its self-agreement value 1. -/
theorem jointAgreement_le_one (a b : Joint) : jointAgreement a b ≤ 1 := by
  rw [jointAgreement, div_le_one (by positivity)]
  nlinarith [sq_nonneg (a.x - b.x), sq_nonneg (a.y - b.y)]

/-- The shared confidence weight is nonnegative when all confidences
are. -/
theorem poseWeight_nonneg : ∀ (p q : Frame), (∀ j ∈ p, 0 ≤ j.c) →
    (∀ j ∈ q, 0 ≤ j.c) → 0 ≤ poseWeight p q
  | [], _, _, _ => by simp [poseWeight]
  | _ :: _, [], _, _ => by simp [poseWeight]
  | a :: p, b :: q, hp, hq => by
    have ha := hp a (List.mem_cons_self a p)
    have hb := hq b (List.mem_cons_self b q)
    have hrec := poseWeight_nonneg p q
      (fun j hj => hp j (List.mem_cons_of_mem a hj))
      (fun j hj => hq j (List.mem_cons_of_mem b hj))
    have h1 : 0 ≤ a.c * b.c := mul_nonneg ha hb
    simp only [poseWeight, List.zipWith_cons_cons, List.sum_cons] at hrec ⊢
    linarith

/-- The agreement-weighted numerator of the similarity is bounded by the
shared confidence weight. -/
theorem zipWith_agree_le : ∀ (p q : Frame), (∀ j ∈ p, 0 ≤ j.c) →
    (∀ j ∈ q, 0 ≤ j.c) →
    (List.zipWith (fun a b => a.c * b.c * jointAgreement a b) p q).sum ≤
      poseWeight p q
  | [], _, _, _ => by simp [poseWeight]
  | _ :: _, [], _, _ => by simp [poseWeight]
  | a :: p, b :: q, hp, hq => by
    have ha := hp a (List.mem_cons_self a p)
    have hb := hq b (List.mem_cons_self b q)
    have hrec := zipWith_agree_le p q
      (fun j hj => hp j (List.mem_cons_of_mem a hj))
      (fun j hj => hq j (List.mem_cons_of_mem b hj))
    have hterm : a.c * b.c * jointAgreement a b ≤ a.c * b.c :=
      mul_le_of_le_one_right (mul_nonneg ha hb) (jointAgreement_le_one a b)
    simp only [poseWeight, List.zipWith_cons_cons, List.sum_cons] at hrec ⊢
    linarith

/-- Against itself, the agreement-weighted numerator is exactly the
shared confidence weight. -/
theorem zipWith_agree_self (p : Frame) :
    (List.zipWith (fun a b => a.c * b.c * jointAgreement a b) p p).sum =
      poseWeight p p := by
  rw [poseWeight]
  induction p with
  | nil => rfl
  | cons a t ih =>
    simp only [List.zipWith_cons_cons, List.sum_cons, jointAgreement_self,
      mul_one]
    rw [ih]

/-- Self-similarity of a pose with usable confidence weight is the
maximal value 1. -/
theorem poseSimilarity_self (p : Frame)
    (hw : poseWeight p p ≠ 0) : poseSimilarity p p = 1 := by
  rw [poseSimilarity, if_neg hw, zipWith_agree_self, div_self hw]

/-- A pair with no shared confidence weight — in particular the
no-signal sentinel against anything — gets the minimal similarity 0. -/
theorem poseSimilarity_of_weight_zero (p q : Frame)
    (hw : poseWeight p q = 0) : poseSimilarity p q = 0 := by
  rw [poseSimilarity, if_pos hw]

/-- Similarity is bounded by the self-similarity value 1. -/
theorem poseSimilarity_le_one (p q : Frame) (hp : ∀ j ∈ p, 0 ≤ j.c)
    (hq : ∀ j ∈ q, 0 ≤ j.c) : poseSimilarity p q ≤ 1 := by
  rw [poseSimilarity]
  by_cases hw : poseWeight p q = 0
  · rw [if_pos hw]
    norm_num
  · rw [if_neg hw]
    have hwpos : 0 < poseWeight p q :=
      lt_of_le_of_ne (poseWeight_nonneg p q hp hq) (Ne.symm hw)
    rw [div_le_one hwpos]
    exact zipWith_agree_le p q hp hq

/-- Normalization keeps confidences nonnegative: they either pass
through unchanged or are zeroed by the sentinel. -/
theorem normalizeFrame_conf_nonneg (f : Frame) (hf : ∀ j ∈ f, 0 ≤ j.c) :
    ∀ j ∈ normalizeFrame f, 0 ≤ j.c := by
  intro j hj
  simp only [normalizeFrame] at hj
  split at hj
  · obtain ⟨b, -, rfl⟩ := List.mem_map.mp hj
    simp
  · split at hj
    · obtain ⟨b, -, rfl⟩ := List.mem_map.mp hj
      simp
    · obtain ⟨b, hb, rfl⟩ := List.mem_map.mp hj
      simpa using hf b hb

/-! ## Similarity matrix lemmas -/

/-- The matrix has one row per student frame. -/
theorem calculate_similarity_length (t s : KptSeq) :
    (calculate_similarity t s).length = s.length := by
  simp [calculate_similarity]

/-- The first row has one entry per teacher frame. -/
theorem calculate_similarity_head_length (t s : KptSeq) (hs : s ≠ []) :
    ((calculate_similarity t s).headD []).length = t.length := by
  cases s with
  | nil => exact absurd rfl hs
  | cons f s => simp [calculate_similarity]

/-- In-range entries of the matrix are the pairwise similarities of the
normalized frames. -/
theorem matEntry_calc (t s : KptSeq) (i j : ℕ) (hi : i < s.length)
    (hj : j < t.length) :
    matEntry (calculate_similarity t s) i j =
      poseSimilarity (normalizeFrame s[i]) (normalizeFrame t[j]) := by
  rw [matEntry]
  have hi' : i < (calculate_similarity t s).length := by
    simpa [calculate_similarity] using hi
  rw [List.getD_eq_getElem _ _ hi']
  have hrow : (calculate_similarity t s)[i] =
      (t.map normalizeFrame).map
        (fun tp => poseSimilarity (normalizeFrame s[i]) tp) := by
    simp [calculate_similarity]
  rw [hrow]
  have hj' : j < ((t.map normalizeFrame).map
      (fun tp => poseSimilarity (normalizeFrame s[i]) tp)).length := by
    simpa using hj
  rw [List.getD_eq_getElem _ _ hj']
  simp

/-- Every entry of the matrix (0 outside its bounds) is at most 1 when
all input confidences are nonnegative. -/
theorem matEntry_calc_le_one (t s : KptSeq)
    (ht : ∀ f ∈ t, ∀ j ∈ f, 0 ≤ j.c) (hs : ∀ f ∈ s, ∀ j ∈ f, 0 ≤ j.c) :
    ∀ i j, matEntry (calculate_similarity t s) i j ≤ 1 := by
  intro i j
  by_cases hi : i < s.length
  · by_cases hj : j < t.length
    · rw [matEntry_calc t s i j hi hj]
      exact poseSimilarity_le_one _ _
        (normalizeFrame_conf_nonneg _ (hs _ (List.getElem_mem hi)))
        (normalizeFrame_conf_nonneg _ (ht _ (List.getElem_mem hj)))
    · rw [matEntry]
      have hrow : ((calculate_similarity t s).getD i []).length = t.length := by
        rw [List.getD_eq_getElem _ _
          (by simpa [calculate_similarity] using hi)]
        simp [calculate_similarity]
      rw [List.getD_eq_default _ _ (by rw [hrow]; omega)]
      norm_num
  · have h1 : (calculate_similarity t s).getD i [] = [] :=
      List.getD_eq_default _ _ (by simpa [calculate_similarity] using hi)
    rw [matEntry, h1]
    norm_num [List.getD]

/-- Diagonal entries of the self-similarity matrix are maximal for
frames whose normalized pose carries usable confidence weight. -/
theorem matEntry_calc_diag (a : KptSeq) (i : ℕ) (hi : i < a.length)
    (hw : poseWeight (normalizeFrame a[i]) (normalizeFrame a[i]) ≠ 0) :
    matEntry (calculate_similarity a a) i i = 1 := by
  rw [matEntry_calc a a i i hi hi, poseSimilarity_self _ hw]

/-- The main diagonal of the self-similarity matrix is all ones when no
frame normalizes to the no-signal sentinel. -/
theorem diagScores_calc_diag (a : KptSeq)
    (hw : ∀ f ∈ a, poseWeight (normalizeFrame f) (normalizeFrame f) ≠ 0) :
    diagScores (calculate_similarity a a) 0 0 a.length =
      List.replicate a.length 1 := by
  refine List.eq_replicate_iff.mpr ⟨by simp [diagScores], ?_⟩
  intro x hx
  simp only [diagScores, List.mem_map, List.mem_range] at hx
  obtain ⟨k, hk, rfl⟩ := hx
  simpa using matEntry_calc_diag a k hk (hw _ (List.getElem_mem hk))

/-! ## Candidate lemmas -/

/-- The candidate at offset 0 starts both sequences at 0 and spans the
whole shared length. -/
theorem candidateAt_zero (M : List (List ℚ)) (m n : ℕ) :
    candidateAt M m n 0 = ⟨0, 0, min m n, diagScores M 0 0 (min m n)⟩ := by
  simp [candidateAt]

/-- Any full-diagonal candidate scores at most 1 when every matrix entry
is at most 1. -/
theorem diag_piece_score_le_one (M : List (List ℚ)) (ts ss si ti len : ℕ)
    (hent : ∀ i j, matEntry M i j ≤ 1) :
    pieceScore ⟨ts, ss, len, diagScores M si ti len⟩ ≤ 1 := by
  rw [pieceScore]
  rcases Nat.eq_zero_or_pos len with h0 | hpos
  · subst h0
    simp [diagScores]
  · have hmem : ∀ x ∈ diagScores M si ti len, x ≤ (1 : ℚ) := by
      intro x hx
      simp only [diagScores, List.mem_map, List.mem_range] at hx
      obtain ⟨k, -, rfl⟩ := hx
      exact hent _ _
    have hsum := List.sum_le_card_nsmul (diagScores M si ti len) 1 hmem
    have hlen : (diagScores M si ti len).length = len := by simp [diagScores]
    rw [hlen, nsmul_eq_mul, mul_one] at hsum
    rw [div_le_one (by exact_mod_cast hpos)]
    exact hsum

/-- Every candidate of the selector scores at most 1 when every matrix
entry is at most 1. -/
theorem candidateAt_score_le_one (M : List (List ℚ)) (m n : ℕ) (d : ℤ)
    (hent : ∀ i j, matEntry M i j ≤ 1) :
    pieceScore (candidateAt M m n d) ≤ 1 := by
  rw [candidateAt]
  by_cases h0 : 0 ≤ d
  · rw [if_pos h0]
    exact diag_piece_score_le_one M 0 d.toNat d.toNat 0 _ hent
  · rw [if_neg h0]
    exact diag_piece_score_le_one M (-d).toNat 0 0 (-d).toNat _ hent

/-- On a square matrix, every candidate at a nonzero offset is strictly
shorter than the full length. -/
theorem candidateAt_length_lt (M : List (List ℚ)) (n : ℕ) (d : ℤ)
    (hn : 0 < n) (hd : d ≠ 0) : (candidateAt M n n d).length < n := by
  rw [candidateAt]
  by_cases h0 : 0 ≤ d
  · rw [if_pos h0]
    show min (n - d.toNat) n < n
    omega
  · rw [if_neg h0]
    show min n (n - (-d).toNat) < n
    omega

/-- The offset-0 candidate of the sentinel-free self-similarity matrix
attains the maximal length-normalized score 1. -/
theorem pieceScore_diag_self (a : KptSeq) (ha : a ≠ [])
    (hw : ∀ f ∈ a, poseWeight (normalizeFrame f) (normalizeFrame f) ≠ 0) :
    pieceScore
      (candidateAt (calculate_similarity a a) a.length a.length 0) = 1 := by
  rw [candidateAt_zero, pieceScore]
  simp only [min_self]
  rw [diagScores_calc_diag a hw, List.sum_replicate, nsmul_eq_mul, mul_one]
  exact div_self (Nat.cast_ne_zero.mpr (List.length_pos.mpr ha).ne')

/-! ## Evaluation lemmas for the concrete similarity instances -/

/-- Evaluation: the two-joint frame normalizes to a centered,
unit-scale pose with unchanged confidences. -/
theorem normalizeFrame_frameX :
    normalizeFrame frameX = [⟨-(1 / 2), -(1 / 2), 1⟩, ⟨1 / 2, 1 / 2, 1⟩] := by
  norm_num [normalizeFrame, frameX, confidence_threshold, listMax, listMin,
    List.filter]

/-- Evaluation: the all-zero frame normalizes to the no-signal
sentinel. -/
theorem normalizeFrame_frameZ :
    normalizeFrame frameZ = [⟨0, 0, 0⟩, ⟨0, 0, 0⟩] := by
  norm_num [normalizeFrame, frameZ, confidence_threshold, List.filter]

/-- Evaluation: self-similarity of the detected frame is maximal. -/
theorem poseSimilarity_frameXX :
    poseSimilarity (normalizeFrame frameX) (normalizeFrame frameX) = 1 := by
  apply poseSimilarity_self
  rw [normalizeFrame_frameX]
  norm_num [poseWeight]

/-- Evaluation: the detected frame against the sentinel is minimal. -/
theorem poseSimilarity_frameXZ :
    poseSimilarity (normalizeFrame frameX) (normalizeFrame frameZ) = 0 := by
  apply poseSimilarity_of_weight_zero
  rw [normalizeFrame_frameX, normalizeFrame_frameZ]
  norm_num [poseWeight]

/-- Evaluation: the sentinel against the detected frame is minimal. -/
theorem poseSimilarity_frameZX :
    poseSimilarity (normalizeFrame frameZ) (normalizeFrame frameX) = 0 := by
  apply poseSimilarity_of_weight_zero
  rw [normalizeFrame_frameX, normalizeFrame_frameZ]
  norm_num [poseWeight]

/-- Evaluation: the sentinel even against itself is minimal. -/
theorem poseSimilarity_frameZZ :
    poseSimilarity (normalizeFrame frameZ) (normalizeFrame frameZ) = 0 := by
  apply poseSimilarity_of_weight_zero
  rw [normalizeFrame_frameZ]
  norm_num [poseWeight]

/-- Evaluation: the similarity matrix of the counterexample pair. -/
theorem calculate_similarity_seqCex :
    calculate_similarity seqCex seqCex = matCex := by
  simp only [matCex]
  simp [calculate_similarity, seqCex, poseSimilarity_frameXX,
    poseSimilarity_frameXZ, poseSimilarity_frameZX, poseSimilarity_frameZZ]

/-- Evaluation: the counterexample candidate at offset -2. -/
theorem candidateAt_matCex_neg2 :
    candidateAt matCex 3 3 (-2) = ⟨2, 0, 1, [1]⟩ := by
  rw [candidateAt, if_neg (by decide)]
  have h1 : (-(-2 : ℤ)).toNat = 2 := by decide
  rw [h1]
  norm_num [diagScores, matEntry, matCex, List.range_succ]

/-- Evaluation: the counterexample candidate at offset -1. -/
theorem candidateAt_matCex_neg1 :
    candidateAt matCex 3 3 (-1) = ⟨1, 0, 2, [0, 0]⟩ := by
  rw [candidateAt, if_neg (by decide)]
  have h1 : (-(-1 : ℤ)).toNat = 1 := by decide
  rw [h1]
  norm_num [diagScores, matEntry, matCex, List.range_succ]

/-- Evaluation: the counterexample candidate at offset 0 — the full
diagonal, dragged down by the sentinel entry. -/
theorem candidateAt_matCex_zero :
    candidateAt matCex 3 3 0 = ⟨0, 0, 3, [1, 0, 1]⟩ := by
  rw [candidateAt, if_pos (by decide)]
  have h1 : (0 : ℤ).toNat = 0 := by decide
  rw [h1]
  norm_num [diagScores, matEntry, matCex, List.range_succ]

/-- Evaluation: the counterexample candidate at offset 1. -/
theorem candidateAt_matCex_one :
    candidateAt matCex 3 3 1 = ⟨0, 1, 2, [0, 0]⟩ := by
  rw [candidateAt, if_pos (by decide)]
  have h1 : (1 : ℤ).toNat = 1 := by decide
  rw [h1]
  norm_num [diagScores, matEntry, matCex, List.range_succ]

/-- Evaluation: the counterexample candidate at offset 2. -/
theorem candidateAt_matCex_two :
    candidateAt matCex 3 3 2 = ⟨0, 2, 1, [1]⟩ := by
  rw [candidateAt, if_pos (by decide)]
  have h1 : (2 : ℤ).toNat = 2 := by decide
  rw [h1]
  norm_num [diagScores, matEntry, matCex, List.range_succ]

/-- Evaluation: all five candidates of the counterexample matrix. -/
theorem candidates_matCex : candidates matCex 3 3 =
    [⟨2, 0, 1, [1]⟩, ⟨1, 0, 2, [0, 0]⟩, ⟨0, 0, 3, [1, 0, 1]⟩,
     ⟨0, 1, 2, [0, 0]⟩, ⟨0, 2, 1, [1]⟩] := by
  rw [candidates]
  norm_num [List.range_succ, candidateAt_matCex_neg2, candidateAt_matCex_neg1,
    candidateAt_matCex_zero, candidateAt_matCex_one, candidateAt_matCex_two]

/-- Evaluation: the selector on the counterexample matrix keeps the
length-1, offset -2 candidate — the full diagonal's mean 2/3 loses to
the shorter all-maximal diagonals' mean 1. -/
theorem select_matCex :
    select_piece_from_similarity matCex = some ⟨2, 0, 1, [1]⟩ := by
  have hb1 : pieceBetter ⟨1, 0, 2, [0, 0]⟩ ⟨2, 0, 1, [1]⟩ = false := by
    norm_num [pieceBetter, pieceScore]
  have hb2 : pieceBetter ⟨0, 0, 3, [1, 0, 1]⟩ ⟨2, 0, 1, [1]⟩ = false := by
    norm_num [pieceBetter, pieceScore]
  have hb3 : pieceBetter ⟨0, 1, 2, [0, 0]⟩ ⟨2, 0, 1, [1]⟩ = false := by
    norm_num [pieceBetter, pieceScore]
  have hb4 : pieceBetter ⟨0, 2, 1, [1]⟩ ⟨2, 0, 1, [1]⟩ = false := by
    norm_num [pieceBetter, pieceScore]
  have hm : matCex.length = 3 := by norm_num [matCex]
  have hh : (matCex.headD []).length = 3 := by norm_num [matCex]
  simp only [select_piece_from_similarity, hm, hh]
  rw [if_neg (by norm_num), candidates_matCex]
  simp only [pickBest, List.foldl_cons, List.foldl_nil, hb1, hb2, hb3, hb4,
    if_false, Bool.false_eq_true]

/-! ## Claim C1 -/

/-- Claim C1 (amended): for two identical keypoint sequences (with the
data model's nonnegative confidences) in which every frame normalizes
to a pose with usable confidence weight — that is, no frame normalizes
to the no-signal sentinel — the Alignment Selector applied to their
similarity matrix returns the offset-0 candidate, teacher start and
student start both 0, whose selected length is the full shared sequence
length, never a proper sub-segment.  Without the sentinel-freeness
condition the original claim fails; see the counterexample. -/
theorem claim_C1 (a : KptSeq) (ha : a ≠ [])
    (hc : ∀ f ∈ a, ∀ j ∈ f, 0 ≤ j.c)
    (hw : ∀ f ∈ a, poseWeight (normalizeFrame f) (normalizeFrame f) ≠ 0) :
    ∃ p, select_piece_from_similarity (calculate_similarity a a) = some p ∧
      p.tch_start = 0 ∧ p.stu_start = 0 ∧ p.length = a.length := by
  have hn0 : 0 < a.length := List.length_pos.mpr ha
  have hMlen : (calculate_similarity a a).length = a.length :=
    calculate_similarity_length a a
  have hhead : ((calculate_similarity a a).headD []).length = a.length :=
    calculate_similarity_head_length a a ha
  have hent : ∀ i j, matEntry (calculate_similarity a a) i j ≤ 1 :=
    matEntry_calc_le_one a a hc hc
  have hc0len :
      (candidateAt (calculate_similarity a a) a.length a.length 0).length =
        a.length := by
    rw [candidateAt_zero]
    simp
  have hc0fields :
      (candidateAt (calculate_similarity a a) a.length a.length 0).tch_start
        = 0 ∧
      (candidateAt (calculate_similarity a a) a.length a.length 0).stu_start
        = 0 := by
    rw [candidateAt_zero]
    exact ⟨rfl, rfl⟩
  refine ⟨candidateAt (calculate_similarity a a) a.length a.length 0, ?_,
    hc0fields.1, hc0fields.2, hc0len⟩
  have hmem : candidateAt (calculate_similarity a a) a.length a.length 0 ∈
      candidates (calculate_similarity a a) a.length a.length := by
    have harg : ((a.length - 1 : ℕ) : ℤ) - ((a.length : ℤ) - 1) = 0 := by
      omega
    have hin : candidateAt (calculate_similarity a a) a.length a.length
        (((a.length - 1 : ℕ) : ℤ) - ((a.length : ℤ) - 1)) ∈
        candidates (calculate_similarity a a) a.length a.length := by
      rw [candidates]
      exact List.mem_map_of_mem
        (fun i : ℕ => candidateAt (calculate_similarity a a) a.length
          a.length ((i : ℤ) - ((a.length : ℤ) - 1)))
        (List.mem_range.mpr
          (show a.length - 1 < a.length + a.length - 1 by omega))
    rwa [harg] at hin
  have hdom : ∀ y ∈ candidates (calculate_similarity a a) a.length a.length,
      y ≠ candidateAt (calculate_similarity a a) a.length a.length 0 →
      pieceBetter (candidateAt (calculate_similarity a a) a.length a.length 0)
        y = true ∧
      pieceBetter y
        (candidateAt (calculate_similarity a a) a.length a.length 0) =
        false := by
    intro y hy hyne
    rw [candidates] at hy
    obtain ⟨i, hi, rfl⟩ := List.mem_map.mp hy
    by_cases hd0 : ((i : ℤ) - ((a.length : ℤ) - 1)) = 0
    · exact absurd (by rw [hd0]) hyne
    · apply pieceBetter_dominates
      · rw [pieceScore_diag_self a ha hw]
        exact candidateAt_score_le_one (calculate_similarity a a)
          a.length a.length _ hent
      · rw [hc0len]
        exact candidateAt_length_lt (calculate_similarity a a) a.length _
          hn0 hd0
  simp only [select_piece_from_similarity, hMlen, hhead]
  rw [if_neg (by omega)]
  exact pickBest_eq pieceBetter _ _ hmem
    (pieceBetter_self _) hdom

/-- Witness for claim C1: a one-frame sequence with two confident
joints — its normalized pose carries usable weight — aligned against
itself. -/
theorem claim_C1_witness :
    ((kptsC : KptSeq) ≠ [] ∧
      (∀ f ∈ (kptsC : KptSeq), ∀ j ∈ f, 0 ≤ j.c) ∧
      (∀ f ∈ (kptsC : KptSeq),
        poseWeight (normalizeFrame f) (normalizeFrame f) ≠ 0)) ∧
    (∃ p, select_piece_from_similarity
        (calculate_similarity kptsC kptsC) = some p ∧
      p.tch_start = 0 ∧ p.stu_start = 0 ∧
      p.length = (kptsC : KptSeq).length) := by
  have hc : ∀ f ∈ (kptsC : KptSeq), ∀ j ∈ f, 0 ≤ j.c := by
    intro f hf j hj
    simp only [kptsC, List.mem_singleton] at hf
    subst hf
    simp only [frameX, List.mem_cons, List.not_mem_nil, or_false] at hj
    rcases hj with rfl | rfl <;> norm_num
  have hw : ∀ f ∈ (kptsC : KptSeq),
      poseWeight (normalizeFrame f) (normalizeFrame f) ≠ 0 := by
    intro f hf
    simp only [kptsC, List.mem_singleton] at hf
    subst hf
    rw [normalizeFrame_frameX]
    norm_num [poseWeight]
  exact ⟨⟨by simp [kptsC], hc, hw⟩,
    claim_C1 kptsC (by simp [kptsC]) hc hw⟩

/-- Counterexample to claim C1 as stated: an identical pair holding a
no-signal frame between two detected frames.  The sentinel's minimal
similarity drags the offset-0 diagonal's mean below 1, so the selector
prefers a shorter all-maximal diagonal and returns a proper sub-segment
with a nonzero teacher start. -/
theorem claim_C1_counterexample :
    seqCex ≠ [] ∧ (∀ f ∈ seqCex, ∀ j ∈ f, 0 ≤ j.c) ∧
    select_piece_from_similarity (calculate_similarity seqCex seqCex) =
      some ⟨2, 0, 1, [1]⟩ ∧
    ¬ ∃ p,
        select_piece_from_similarity (calculate_similarity seqCex seqCex) =
          some p ∧
        p.tch_start = 0 ∧ p.stu_start = 0 ∧ p.length = seqCex.length := by
  refine ⟨by simp [seqCex],  ?_,
    by rw [calculate_similarity_seqCex]; exact select_matCex, ?_⟩
  · intro f hf j hj
    simp only [seqCex, List.mem_cons, List.not_mem_nil, or_false] at hf
    rcases hf with rfl | rfl | rfl <;>
      simp only [frameX, frameZ, List.mem_cons, List.not_mem_nil,
        or_false] at hj <;>
      rcases hj with rfl | rfl <;> norm_num
  · rintro ⟨p, hp, hts, -, -⟩
    rw [calculate_similarity_seqCex, select_matCex] at hp
    simp only [Option.some.injEq] at hp
    subst hp
    exact absurd hts (by decide)

/-- Witness for claim C4: a pipeline run on two identical one-frame
videos, with two different smoothing functions. -/
theorem claim_C4_witness :
    (runWith (fun _ _ _ => []) envC [] "t" "t" =
      .ok ⟨[[1]], ⟨0, 0, 1, [1]⟩,
        some ⟨kptsC, kptsC, [0], [0], [([], [])], 1000, 0⟩⟩ ∧
     get_keypoints_from_video envC [] "t" =
       .ok (kptsC, [(cacheFile "t", kptsC)], true) ∧
     get_keypoints_from_video envC [(cacheFile "t", kptsC)] "t" =
       .ok (kptsC, [(cacheFile "t", kptsC)], false)) ∧
    ((⟨[[1]], ⟨0, 0, 1, [1]⟩,
        some ⟨kptsC, kptsC, [0], [0], [([], [])], 1000, 0⟩⟩ : RunResult).sim =
       calculate_similarity kptsC kptsC ∧
     select_piece_from_similarity
       (⟨[[1]], ⟨0, 0, 1, [1]⟩,
         some ⟨kptsC, kptsC, [0], [0], [([], [])], 1000, 0⟩⟩ :
           RunResult).sim =
       some (⟨[[1]], ⟨0, 0, 1, [1]⟩,
         some ⟨kptsC, kptsC, [0], [0], [([], [])], 1000, 0⟩⟩ :
           RunResult).piece ∧
     (runWith (fun _ _ _ => [⟨9, 9, 9⟩]) envC [] "t" "t").toOption.map
       (fun x => (x.sim, x.piece)) =
       some ((⟨[[1]], ⟨0, 0, 1, [1]⟩,
         some ⟨kptsC, kptsC, [0], [0], [([], [])], 1000, 0⟩⟩ :
           RunResult).sim,
         (⟨[[1]], ⟨0, 0, 1, [1]⟩,
           some ⟨kptsC, kptsC, [0], [0], [([], [])], 1000, 0⟩⟩ :
             RunResult).piece)) := by
  have hk1 : get_keypoints_from_video envC [] "t" =
      .ok (kptsC, [(cacheFile "t", kptsC)], true) := by
    simp [get_keypoints_from_video, extract_video_keypoints,
      get_keypoints_from_frame, envC, kptsC, frameX] <;> norm_num
  have hk2 : get_keypoints_from_video envC [(cacheFile "t", kptsC)] "t" =
      .ok (kptsC, [(cacheFile "t", kptsC)], false) := by
    simp [get_keypoints_from_video, List.lookup]
  have hcalc : calculate_similarity kptsC kptsC = [[1]] := by
    simp [calculate_similarity, kptsC, poseSimilarity_frameXX]
  have hsel1 : select_piece_from_similarity [[1]] = some ⟨0, 0, 1, [1]⟩ := by
    simp [select_piece_from_similarity, candidates, candidateAt, diagScores,
      matEntry, pickBest, List.range_succ]
  have hgen : generate_output_videoWith (fun _ _ _ => []) [0] [0] kptsC kptsC
      ⟨0, 0, 1, [1]⟩ =
      some ⟨kptsC, kptsC, [0], [0], [([], [])], 1000, 0⟩ := by
    simp [generate_output_videoWith, skipFrames, genLoop, scoreStep,
      kptsC] <;> norm_num
  have hframes : envC.frames "t" = [0] := rfl
  have h1 : runWith (fun _ _ _ => []) envC [] "t" "t" =
      .ok ⟨[[1]], ⟨0, 0, 1, [1]⟩,
        some ⟨kptsC, kptsC, [0], [0], [([], [])], 1000, 0⟩⟩ := by
    simp only [runWith, hk1, hk2, hcalc, hsel1, hframes, hgen]
  exact ⟨⟨h1, hk1, hk2⟩,
    claim_C4 (fun _ _ _ => []) (fun _ _ _ => [⟨9, 9, 9⟩]) envC [] "t" "t"
      ⟨[[1]], ⟨0, 0, 1, [1]⟩,
        some ⟨kptsC, kptsC, [0], [0], [([], [])], 1000, 0⟩⟩
      kptsC kptsC [(cacheFile "t", kptsC)] [(cacheFile "t", kptsC)]
      true false h1 hk1 hk2⟩
